import Mathlib

/-!
Verification of the o5m streaming decoder (`src/lib.rs`, `src/parse.rs`,
`src/data.rs`) against its natural-language specification.

The Rust code is shallowly embedded: bytes are `Nat` (values < 256 on the
wire), `u64`/`i64`/`i32` arithmetic uses `Nat`/`Int` with explicit casts
that reduce modulo the machine width, slices are `List Nat` suffixes, and
every fallible Rust operation returns a `PResult`, a three-outcome result
type: `ok`, `err e` (a returned `DecodeError`), or `crash` (a Rust panic,
e.g. an out-of-bounds index or slice).  Loops whose cursor advances by a
data-dependent amount are written with an explicit fuel parameter that is
always called with more fuel than the loop can consume, so that every
definition evaluates inside the kernel.
-/

set_option maxRecDepth 100000

namespace O5m

/-- The decode error type from `src/lib.rs` (`enum DecodeError`).  Backtrace
and boxed-source payloads carry no decode-relevant information and are
dropped.  Note that the enum has no `TruncatedStream` variant. -/
inductive DecodeError : Type where
  | StringUnavailable (index : Nat)
  | UnexpectedByte (info : String) (expected : Nat) (received : Nat)
  | UnexpectedElementType (received : Nat)
  | StreamReadError
  | StringEncodingError
  | UnterminatedSignedInteger
  | UnterminatedUnsignedInteger
deriving DecidableEq, Repr

/-- Outcome of an embedded Rust computation: a value, a returned
`DecodeError`, or a Rust panic (`crash`), e.g. an out-of-bounds slice. -/
inductive PResult (α : Type) : Type where
  | ok (a : α)
  | err (e : DecodeError)
  | crash
deriving DecidableEq, Repr

/-- `buf[i..]` — Rust panics when `i > buf.len()`. -/
def sliceFromP (buf : List Nat) (i : Nat) : PResult (List Nat) :=
  if i ≤ buf.length then .ok (buf.drop i) else .crash

/-- `.iter().position(|p| *p == 0x00)` on a byte slice. -/
def position0 : List Nat → Option Nat
  | [] => none
  | b :: rest => if b = 0 then some 0 else (position0 rest).map (· + 1)

/-- `x as u64` for an `i64` value: reduce modulo 2^64 into `Nat`. -/
def asU64 (z : Int) : Nat := (z % (2 ^ 64 : Int)).toNat

/-- `x as i64` for a `u64` value: reinterpret modulo 2^64 as a signed 64-bit
integer. -/
def u64AsI64 (n : Nat) : Int :=
  let m : Nat := n % 2 ^ 64
  if m < 2 ^ 63 then (m : Int) else (m : Int) - 2 ^ 64

/-- `x as i32` for an `i64` value: wrap into `[-2^31, 2^31)`. -/
def asI32 (z : Int) : Int := (z + 2 ^ 31) % (2 ^ 32 : Int) - 2 ^ 31

/-- UTF-8 validity of a byte sequence, as checked by Rust's
`str::from_utf8` / `String::from_utf8` (rejecting overlong forms,
surrogates, and values above U+10FFFF). -/
def validUtf8 : List Nat → Bool
  | [] => true
  | b :: rest =>
    if b < 0x80 then validUtf8 rest
    else if 0xc2 ≤ b ∧ b ≤ 0xdf then
      match rest with
      | c :: r => decide (0x80 ≤ c ∧ c ≤ 0xbf) && validUtf8 r
      | [] => false
    else if b = 0xe0 then
      match rest with
      | c :: d :: r =>
        decide (0xa0 ≤ c ∧ c ≤ 0xbf) && decide (0x80 ≤ d ∧ d ≤ 0xbf) && validUtf8 r
      | _ => false
    else if (0xe1 ≤ b ∧ b ≤ 0xec) ∨ b = 0xee ∨ b = 0xef then
      match rest with
      | c :: d :: r =>
        decide (0x80 ≤ c ∧ c ≤ 0xbf) && decide (0x80 ≤ d ∧ d ≤ 0xbf) && validUtf8 r
      | _ => false
    else if b = 0xed then
      match rest with
      | c :: d :: r =>
        decide (0x80 ≤ c ∧ c ≤ 0x9f) && decide (0x80 ≤ d ∧ d ≤ 0xbf) && validUtf8 r
      | _ => false
    else if b = 0xf0 then
      match rest with
      | c :: d :: e :: r =>
        decide (0x90 ≤ c ∧ c ≤ 0xbf) && decide (0x80 ≤ d ∧ d ≤ 0xbf) &&
          decide (0x80 ≤ e ∧ e ≤ 0xbf) && validUtf8 r
      | _ => false
    else if 0xf1 ≤ b ∧ b ≤ 0xf3 then
      match rest with
      | c :: d :: e :: r =>
        decide (0x80 ≤ c ∧ c ≤ 0xbf) && decide (0x80 ≤ d ∧ d ≤ 0xbf) &&
          decide (0x80 ≤ e ∧ e ≤ 0xbf) && validUtf8 r
      | _ => false
    else if b = 0xf4 then
      match rest with
      | c :: d :: e :: r =>
        decide (0x80 ≤ c ∧ c ≤ 0x8f) && decide (0x80 ≤ d ∧ d ≤ 0xbf) &&
          decide (0x80 ≤ e ∧ e ≤ 0xbf) && validUtf8 r
      | _ => false
    else false

/-! ## Varint codec (`src/parse.rs`, `signed` / `unsigned`) -/

/-- Loop of `parse::unsigned`: `value += ((b & 0x7f) as u64) << lshift`,
terminating at the first byte below `0x80` and returning `(i+1, value)`.
`u64` semantics are modelled exactly: a shift by an amount below 64
silently discards the bits pushed past bit 63 (hence `% 2 ^ 64` on the
contribution), and the running sum wraps modulo 2^64.  A shift amount of
64 or more (an encoding of eleven or more bytes) is an arithmetic
overflow; the model follows release builds, which mask the shift amount
to the bit width (`lshift % 64`), while debug builds would panic there.
On every encoding of at most ten bytes the two build modes agree (the
shift amount stays below 64 and, thanks to the discarded high bits, the
additions never exceed `u64::MAX`). -/
def unsignedGo (i : Nat) (value : Nat) (lshift : Nat) : List Nat → PResult (Nat × Nat)
  | [] => .err .UnterminatedUnsignedInteger
  | b :: rest =>
    let value := (value + ((b &&& 0x7f) <<< (lshift % 64)) % 2 ^ 64) % 2 ^ 64
    if b < 0x80 then .ok (i + 1, value)
    else unsignedGo (i + 1) value (lshift + 7) rest

/-- `parse::unsigned(buf) -> Result<(usize, u64)>`. -/
def unsignedP (buf : List Nat) : PResult (Nat × Nat) := unsignedGo 0 0 0 buf

/-- The sign transform ending `parse::signed`, applied to the accumulated
raw `i64` value `z`: `sign = match value % 2 { 0 => 1, _ => -1 };
value = value * sign / 2; if sign < 0 { value -= 1 }`.  Rust's `%` and `/`
on `i64` truncate toward zero (`Int.emod z 2 = 0` classifies evenness the
same way as Rust's `z % 2 == 0`, and `Int.tdiv` is truncating division),
so this is `z / 2` for even `z` and `(-z) / 2 - 1` for odd `z`. -/
def rustSignedTransform (z : Int) : Int :=
  if z % 2 = 0 then Int.tdiv z 2 else Int.tdiv (-z) 2 - 1

/-- Loop of `parse::signed`: accumulate the zigzag raw value with exactly
the bit-level behaviour of the unsigned loop (an `i64` shift/add has the
same two's-complement bits as the `u64` one, so the accumulator is kept as
the 64-bit pattern, wrapped modulo 2^64), then reinterpret the pattern as
a signed 64-bit value and apply the sign transform.  As with `unsigned`,
debug and release builds agree on every encoding of at most ten bytes;
longer encodings follow release semantics (masked shift amount). -/
def signedGo (i : Nat) (value : Nat) (lshift : Nat) : List Nat → PResult (Nat × Int)
  | [] => .err .UnterminatedSignedInteger
  | b :: rest =>
    let value := (value + ((b &&& 0x7f) <<< (lshift % 64)) % 2 ^ 64) % 2 ^ 64
    if b < 0x80 then .ok (i + 1, rustSignedTransform (u64AsI64 value))
    else signedGo (i + 1) value (lshift + 7) rest

/-- `parse::signed(buf) -> Result<(usize, i64)>`. -/
def signedP (buf : List Nat) : PResult (Nat × Int) := signedGo 0 0 0 buf

/-! ## Data model (`src/data.rs`) -/

/-- `enum ElementType`. -/
inductive ElementType : Type where
  | Node
  | Way
  | Relation
deriving DecidableEq, Repr

/-- Tag maps (`HashMap<String,String>`) are modelled as key-unique
association lists of byte strings; `HashMap::insert` replaces any existing
binding of the key. -/
abbrev Tags := List (List Nat × List Nat)

/-- `HashMap::insert`: replace an existing binding of `k`, else add one. -/
def tagsInsert (t : Tags) (k v : List Nat) : Tags :=
  t.filter (fun p => p.1 ≠ k) ++ [(k, v)]

/-- `struct Info` (metadata block).  `user` is kept as the validated UTF-8
byte sequence. -/
structure Info : Type where
  version : Option Nat
  timestamp : Option Int
  changeset : Option Nat
  uid : Option Nat
  user : Option (List Nat)
deriving DecidableEq, Repr

/-- `Info::new()`: all fields `None`. -/
def Info.new : Info := ⟨none, none, none, none, none⟩

/-- `struct NodeData`. -/
structure NodeData : Type where
  longitude : Int
  latitude : Int
deriving DecidableEq, Repr

/-- `struct Node`. -/
structure Node : Type where
  id : Nat
  info : Option Info
  data : Option NodeData
  tags : Tags
deriving DecidableEq, Repr

/-- `struct WayData`. -/
structure WayData : Type where
  refs : List Nat
deriving DecidableEq, Repr

/-- `struct Way`. -/
structure Way : Type where
  id : Nat
  info : Option Info
  data : Option WayData
  tags : Tags
deriving DecidableEq, Repr

/-- `struct RelationMember`; `role` is the validated UTF-8 byte sequence. -/
structure RelationMember : Type where
  id : Nat
  element_type : ElementType
  role : List Nat
deriving DecidableEq, Repr

/-- `struct RelationData`. -/
structure RelationData : Type where
  members : List RelationMember
deriving DecidableEq, Repr

/-- `struct Relation`. -/
structure Relation : Type where
  id : Nat
  info : Option Info
  data : Option RelationData
  tags : Tags
deriving DecidableEq, Repr

/-- `struct BBox`. -/
structure BBox : Type where
  x1 : Int
  y1 : Int
  x2 : Int
  y2 : Int
deriving DecidableEq, Repr

/-- `struct Timestamp`. -/
structure Timestamp : Type where
  time : Int
deriving DecidableEq, Repr

/-- `enum Dataset`. -/
inductive Dataset : Type where
  | Node (n : Node)
  | Way (w : Way)
  | Relation (r : Relation)
  | BBox (b : BBox)
  | Timestamp (t : Timestamp)
deriving DecidableEq, Repr

/-- `Dataset::get_id` — `None` for `BBox` and `Timestamp`. -/
def Dataset.get_id : Dataset → Option Nat
  | .Node n => some n.id
  | .Way w => some w.id
  | .Relation r => some r.id
  | _ => none

/-- `Dataset::get_info`. -/
def Dataset.get_info : Dataset → Option Info
  | .Node n => n.info
  | .Way w => w.info
  | .Relation r => r.info
  | _ => none

/-- `enum DatasetType`. -/
inductive DatasetType : Type where
  | Node
  | Way
  | Relation
  | BBox
  | Timestamp
  | Header
  | Sync
  | Jump
  | Reset
deriving DecidableEq, Repr

/-! ## String interning table -/

/-- The interning table `VecDeque<(Vec<u8>,Vec<u8>)>`; the list head is the
deque front (most recently inserted entry). -/
abbrev Strings := List (List Nat × List Nat)

/-- The push/evict step repeated verbatim at the three insertion sites
(`parse.rs` info and tags, `lib.rs` relation members):
`strings.push_front(pair); if strings.len() > 15_000 { strings.pop_back(); }`.
The 250-byte eligibility test stays at the call sites, as in the source. -/
def cachePush (strings : Strings) (a b : List Nat) : Strings :=
  let s := (a, b) :: strings
  if 15000 < s.length then s.dropLast else s

/-! ## `parse::info` (`src/parse.rs` lines 5-83)

The source signature takes the previous id and metadata separately
(`prev_id: &Option<u64>, prev_info: &Option<Info>`); the caller in
`lib.rs` supplies them from its single `prev: Option<Dataset>` slot via
`Dataset::get_id` / `Dataset::get_info` (see `flushD` below).

The parser walks the buffer with an offset; here each step works on the
remaining suffix, with the absolute consumed count rebuilt for the return
value exactly as the source's `offset` accumulates. -/

/-- `parse::info`.  Returns `(bytesConsumed, (id, metadata?), strings')`.
`crash` marks the Rust panic `buf[offset]` when the uid separator index is
past the end of the buffer. -/
def infoP (buf : List Nat) (prev_id : Option Nat) (prev_info : Option Info)
    (strings : Strings) : PResult (Nat × (Nat × Option Info) × Strings) :=
  match signedP buf with
  | .err e => .err e
  | .crash => .crash
  | .ok (s0, x0) =>
    let id := asU64 (x0 + u64AsI64 (prev_id.getD 0))
    let rem1 := buf.drop s0
    match unsignedP rem1 with
    | .err e => .err e
    | .crash => .crash
    | .ok (s1, ver) =>
      if ver = 0 then .ok (s0 + s1, (id, none), strings)
      else
        let rem2 := rem1.drop s1
        match signedP rem2 with
        | .err e => .err e
        | .crash => .crash
        | .ok (s2, ts) =>
          -- p = prev_info.and_then(|info| Some(info.timestamp.unwrap_or(0))).unwrap_or(0)
          let pts := (prev_info.map (fun i => i.timestamp.getD 0)).getD 0
          if ts + pts = 0 then
            .ok (s0 + s1 + s2,
              (id, some { version := some ver, timestamp := none, changeset := none,
                          uid := none, user := none }), strings)
          else
            let tsv := ts + pts
            let rem3 := rem2.drop s2
            match signedP rem3 with
            | .err e => .err e
            | .crash => .crash
            | .ok (s3, cs) =>
              let pcs := u64AsI64 ((prev_info.map (fun i => i.changeset.getD 0)).getD 0)
              let csv := asU64 (cs + pcs)
              let rem4 := rem3.drop s3
              match unsignedP rem4 with
              | .err e => .err e
              | .crash => .crash
              | .ok (s4, sel) =>
                if sel = 0 then
                  let rem5 := rem4.drop s4
                  match unsignedP rem5 with
                  | .err e => .err e
                  | .crash => .crash
                  | .ok (s5, uidv) =>
                    let uid_bytes := rem5.take s5
                    match rem5.drop s5 with
                    | [] => .crash  -- buf[offset] with offset = buf.len(): index panic
                    | b0 :: rem7 =>
                      if b0 ≠ 0 then .err (.UnexpectedByte "decoding uid" 0 b0)
                      else
                        let ulen := (position0 rem7).getD rem7.length
                        let user_bytes := rem7.take ulen
                        if validUtf8 user_bytes then
                          let strings' :=
                            if uid_bytes.length + ulen ≤ 250 then
                              cachePush strings uid_bytes user_bytes
                            else strings
                          .ok (s0 + s1 + s2 + s3 + s4 + s5 + 1 + ulen + 1,
                            (id, some { version := some ver, timestamp := some tsv,
                                        changeset := some csv, uid := some uidv,
                                        user := some user_bytes }), strings')
                        else .err .StringEncodingError
                else
                  match strings.get? (sel - 1) with
                  | none => .err (.StringUnavailable sel)
                  | some pair =>
                    match unsignedP pair.1 with
                    | .err e => .err e
                    | .crash => .crash
                    | .ok (_, uidv) =>
                      if validUtf8 pair.2 then
                        .ok (s0 + s1 + s2 + s3 + s4,
                          (id, some { version := some ver, timestamp := some tsv,
                                      changeset := some csv, uid := some uidv,
                                      user := some pair.2 }), strings)
                      else .err .StringEncodingError

/-! ## `parse::tags` (`src/parse.rs` lines 87-130) -/

/-- Loop of `parse::tags`.  `offset` is the absolute number of bytes
consumed so far, `rem` the remaining suffix of the buffer.  The loop runs
while the cursor has not passed the end of the buffer; when a tag key
reaches the end of the body without its `0x00` terminator the source's
following `&buf[i+1..]` slice index is `buf.len()+1` and Rust panics
(`crash`).  A tag value without a terminator extends to the end of the
body and the loop then exits normally.  Each iteration consumes at least
one byte, so the fuel (one more than the remaining length at every call
site) is never exhausted; the fuel-out branch is unreachable. -/
def tagsGo : Nat → Nat → List Nat → Tags → Strings → PResult (Nat × Tags × Strings)
  | 0, _, _, _, _ => .crash
  | _ + 1, offset, [], tags, strings => .ok (offset, tags, strings)
  | fuel + 1, offset, b :: rest, tags, strings =>
    match unsignedP (b :: rest) with
    | .err e => .err e
    | .crash => .crash
    | .ok (s, x) =>
      if x = 0 then
        let rem1 := (b :: rest).drop s
        match position0 rem1 with
        | none =>
          -- unterminated key: the key extends to the end of the body and its
          -- UTF-8 check runs first; then &buf[i+1..] with i+1 > buf.len() panics
          if validUtf8 rem1 then .crash else .err .StringEncodingError
        | some p =>
          let key_bytes := rem1.take p
          if validUtf8 key_bytes then
            let rem2 := rem1.drop (p + 1)
            let j := (position0 rem2).getD rem2.length
            let value_bytes := rem2.take j
            if validUtf8 value_bytes then
              let tags' := tagsInsert tags key_bytes value_bytes
              let strings' :=
                if key_bytes.length + value_bytes.length ≤ 250 then
                  cachePush strings key_bytes value_bytes
                else strings
              tagsGo fuel (offset + s + p + 1 + j + 1) (rem2.drop (j + 1)) tags' strings'
            else .err .StringEncodingError
          else .err .StringEncodingError
      else
        match strings.get? (x - 1) with
        | none => .err (.StringUnavailable x)
        | some pair =>
          if validUtf8 pair.1 then
            if validUtf8 pair.2 then
              tagsGo fuel (offset + s) ((b :: rest).drop s)
                (tagsInsert tags pair.1 pair.2) strings
            else .err .StringEncodingError
          else .err .StringEncodingError

/-- `parse::tags(buf, strings)`. -/
def tagsP (buf : List Nat) (strings : Strings) : PResult (Nat × Tags × Strings) :=
  tagsGo (buf.length + 1) 0 buf [] strings

/-! ## `Decoder::flush` (`src/lib.rs` lines 191-370) -/

/-- Delta base for a node's longitude:
`match &self.prev { Some(Dataset::Node(node)) => node.data.as_ref()
  .and_then(|data| Some(data.longitude)), _ => None }.unwrap_or(0)`. -/
def prevNodeLon (prev : Option Dataset) : Int :=
  match prev with
  | some (.Node n) => ((n.data.map (fun d => d.longitude)).getD 0)
  | _ => 0

/-- Delta base for a node's latitude (same shape as `prevNodeLon`). -/
def prevNodeLat (prev : Option Dataset) : Int :=
  match prev with
  | some (.Node n) => ((n.data.map (fun d => d.latitude)).getD 0)
  | _ => 0

/-- Delta base for the first way reference: the previous way's *last*
reference, `0` when there is none or the previous record is not a way. -/
def prevWayRef (prev : Option Dataset) : Nat :=
  match prev with
  | some (.Way w) => ((w.data.bind (fun d => d.refs.getLast?)).getD 0)
  | _ => 0

/-- Delta base for relation member ids: the previous relation's last
member id, computed once and used unchanged for every member of the
current relation (the source's `prev_id` is immutable inside the loop). -/
def prevRelMemberId (prev : Option Dataset) : Nat :=
  match prev with
  | some (.Relation r) => ((r.data.bind (fun d => d.members.getLast?.map (fun m => m.id))).getD 0)
  | _ => 0

/-- Way reference loop (`lib.rs` lines 254-261): while `offset < ref_end`,
decode a signed delta against the running previous reference.  `offset` is
absolute, `rem` the matching suffix; the cursor never passes the end of
the buffer here (each varint consumes at most the remaining bytes), so no
slice panic can arise inside the loop.  Fuel is always ample (at least one
byte per iteration). -/
def wayRefsGo : Nat → Nat → List Nat → Nat → Nat → List Nat →
    PResult (Nat × List Nat × List Nat)
  | 0, _, _, _, _, _ => .crash
  | fuel + 1, offset, rem, ref_end, prev_ref, refs =>
    if offset < ref_end then
      match signedP rem with
      | .err e => .err e
      | .crash => .crash
      | .ok (s, x) =>
        let r := asU64 (x + u64AsI64 prev_ref)
        wayRefsGo fuel (offset + s) (rem.drop s) ref_end r (refs ++ [r])
    else .ok (offset, refs, rem)

/-- Map a member string's leading byte to an element type
(`0x30`/`0x31`/`0x32`). -/
def elementTypeOf (b : Nat) : Option ElementType :=
  if b = 0x30 then some .Node
  else if b = 0x31 then some .Way
  else if b = 0x32 then some .Relation
  else none

/-- Relation member loop (`lib.rs` lines 292-336).  `blen` is the full
body length; the cursor can pass the end of the body when an inline member
string is unterminated (`offset = i+1 = blen+1`), in which case the next
`&buf[offset..]` slice panics — checked at the loop head and by the caller
for the trailing tags slice.  `mstring[0]` on an empty member string is an
index panic (`crash`).  `prev_id` is deliberately not updated between
members, matching the source. -/
def membersGo : Nat → Nat → List Nat → Nat → Nat → Nat → List RelationMember →
    Strings → PResult (Nat × List RelationMember × List Nat × Strings)
  | 0, _, _, _, _, _, _, _ => .crash
  | fuel + 1, offset, rem, ref_end, blen, prev_id, members, strings =>
    if offset < ref_end then
      if blen < offset then .crash  -- &buf[offset..] with offset > buf.len() panics
      else
        match signedP rem with
        | .err e => .err e
        | .crash => .crash
        | .ok (s1, x) =>
          let m_id := asU64 (x + u64AsI64 prev_id)
          match unsignedP (rem.drop s1) with
          | .err e => .err e
          | .crash => .crash
          | .ok (s2, sel) =>
            if sel = 0 then
              let rem2 := (rem.drop s1).drop s2
              let pos := position0 rem2
              let mlen := pos.getD rem2.length
              let mbytes := rem2.take mlen
              let strings' :=
                if mbytes.length ≤ 250 then cachePush strings mbytes [] else strings
              match mbytes with
              | [] => .crash  -- mstring[0] on an empty member string: index panic
              | b0 :: role_bytes =>
                match elementTypeOf b0 with
                | none => .err (.UnexpectedElementType b0)
                | some et =>
                  if validUtf8 role_bytes then
                    membersGo fuel (offset + s1 + s2 + mlen + 1)
                      (match pos with | some p => rem2.drop (p + 1) | none => [])
                      ref_end blen prev_id
                      (members ++ [{ id := m_id, element_type := et, role := role_bytes }])
                      strings'
                  else .err .StringEncodingError
            else
              match strings.get? (sel - 1) with
              | none => .err (.StringUnavailable sel)
              | some pair =>
                match pair.1 with
                | [] => .crash  -- mstring[0] on an empty cached pair: index panic
                | b0 :: role_bytes =>
                  match elementTypeOf b0 with
                  | none => .err (.UnexpectedElementType b0)
                  | some et =>
                    if validUtf8 role_bytes then
                      membersGo fuel (offset + s1 + s2) ((rem.drop s1).drop s2)
                        ref_end blen prev_id
                        (members ++ [{ id := m_id, element_type := et, role := role_bytes }])
                        strings
                    else .err .StringEncodingError
    else .ok (offset, members, rem, strings)

/-- Node arm of `Decoder::flush`. -/
def flushNodeD (buf : List Nat) (prev : Option Dataset) (strings : Strings) :
    PResult (Option Dataset × Strings) :=
  match infoP buf (prev.bind Dataset.get_id) (prev.bind Dataset.get_info) strings with
  | .err e => .err e
  | .crash => .crash
  | .ok (s, (id, inf), strings1) =>
    if s = buf.length then
      .ok (some (.Node { id := id, info := inf, data := none, tags := [] }), strings1)
    else
      -- &buf[offset..] panics when info consumed past the end (unterminated user name)
      match sliceFromP buf s with
      | .err e => .err e
      | .crash => .crash
      | .ok rem1 =>
        match signedP rem1 with
        | .err e => .err e
        | .crash => .crash
        | .ok (s1, dx) =>
          let lon := asI32 (dx + prevNodeLon prev)
          match signedP (rem1.drop s1) with
          | .err e => .err e
          | .crash => .crash
          | .ok (s2, dy) =>
            let lat := asI32 (dy + prevNodeLat prev)
            match tagsP ((rem1.drop s1).drop s2) strings1 with
            | .err e => .err e
            | .crash => .crash
            | .ok (_, tags, strings2) =>
              let nd : NodeData := { longitude := lon, latitude := lat }
              let node : Node := { id := id, info := inf, data := some nd, tags := tags }
              .ok (some (.Node node), strings2)

/-- Way arm of `Decoder::flush`. -/
def flushWayD (buf : List Nat) (prev : Option Dataset) (strings : Strings) :
    PResult (Option Dataset × Strings) :=
  match infoP buf (prev.bind Dataset.get_id) (prev.bind Dataset.get_info) strings with
  | .err e => .err e
  | .crash => .crash
  | .ok (s, (id, inf), strings1) =>
    if s = buf.length then
      .ok (some (.Way { id := id, info := inf, data := none, tags := [] }), strings1)
    else
      match sliceFromP buf s with
      | .err e => .err e
      | .crash => .crash
      | .ok rem1 =>
        -- reflen is the number of BYTES, not the number of refs
        match unsignedP rem1 with
        | .err e => .err e
        | .crash => .crash
        | .ok (sr, reflen) =>
          let ref_end := s + sr + reflen
          match wayRefsGo (ref_end + 1) (s + sr) (rem1.drop sr) ref_end
              (prevWayRef prev) [] with
          | .err e => .err e
          | .crash => .crash
          | .ok (_, refs, rem2) =>
            match tagsP rem2 strings1 with
            | .err e => .err e
            | .crash => .crash
            | .ok (_, tags, strings2) =>
              let way : Way := { id := id, info := inf, data := some { refs := refs }, tags := tags }
              .ok (some (.Way way), strings2)

/-- Relation arm of `Decoder::flush`. -/
def flushRelationD (buf : List Nat) (prev : Option Dataset) (strings : Strings) :
    PResult (Option Dataset × Strings) :=
  match infoP buf (prev.bind Dataset.get_id) (prev.bind Dataset.get_info) strings with
  | .err e => .err e
  | .crash => .crash
  | .ok (s, (id, inf), strings1) =>
    if s = buf.length then
      .ok (some (.Relation { id := id, info := inf, data := none, tags := [] }), strings1)
    else
      match sliceFromP buf s with
      | .err e => .err e
      | .crash => .crash
      | .ok rem1 =>
        -- reflen is the number of BYTES, not the number of refs
        match unsignedP rem1 with
        | .err e => .err e
        | .crash => .crash
        | .ok (sr, reflen) =>
          let ref_end := s + sr + reflen
          match membersGo (ref_end + 1) (s + sr) (rem1.drop sr) ref_end buf.length
              (prevRelMemberId prev) [] strings1 with
          | .err e => .err e
          | .crash => .crash
          | .ok (offset2, members, rem2, strings2) =>
            if buf.length < offset2 then .crash  -- trailing &buf[offset..] slice panic
            else
              match tagsP rem2 strings2 with
              | .err e => .err e
              | .crash => .crash
              | .ok (_, tags, strings3) =>
                let rel : Relation := { id := id, info := inf, data := some { members := members }, tags := tags }
                .ok (some (.Relation rel), strings3)

/-- Timestamp arm of `Decoder::flush`. -/
def flushTimestampD (buf : List Nat) : PResult (Option Dataset) :=
  match signedP buf with
  | .err e => .err e
  | .crash => .crash
  | .ok (_, t) => .ok (some (.Timestamp { time := t }))

/-- BBox arm of `Decoder::flush`: four consecutive signed values, each
truncated to `i32`. -/
def flushBBoxD (buf : List Nat) : PResult (Option Dataset) :=
  match signedP buf with
  | .err e => .err e
  | .crash => .crash
  | .ok (s1, x1) =>
    match signedP (buf.drop s1) with
    | .err e => .err e
    | .crash => .crash
    | .ok (s2, y1) =>
      match signedP ((buf.drop s1).drop s2) with
      | .err e => .err e
      | .crash => .crash
      | .ok (s3, x2) =>
        match signedP (((buf.drop s1).drop s2).drop s3) with
        | .err e => .err e
        | .crash => .crash
        | .ok (_, y2) =>
          .ok (some (.BBox { x1 := asI32 x1, y1 := asI32 y1,
                             x2 := asI32 x2, y2 := asI32 y2 }))

/-- `Decoder::flush`, dispatching on the current frame type.  Control
frames (`Header`, `Sync`, `Jump`, `Reset`) and unknown types produce no
record.  The `prev_id`/`prev_info` arguments of `parse::info` are
supplied from the decoder's single `prev` slot via `Dataset::get_id` /
`Dataset::get_info` (the slot is set by every emitted record regardless of
its type; `get_id`/`get_info` return `None` for `BBox`/`Timestamp`). -/
def flushD (dt : Option DatasetType) (chunk : List Nat) (prev : Option Dataset)
    (strings : Strings) : PResult (Option Dataset × Strings) :=
  match dt with
  | some .Node => flushNodeD chunk prev strings
  | some .Way => flushWayD chunk prev strings
  | some .Relation => flushRelationD chunk prev strings
  | some .Timestamp =>
    match flushTimestampD chunk with
    | .err e => .err e
    | .crash => .crash
    | .ok res => .ok (res, strings)
  | some .BBox =>
    match flushBBoxD chunk with
    | .err e => .err e
    | .crash => .crash
    | .ok res => .ok (res, strings)
  | some .Header => .ok (none, strings)
  | some .Sync => .ok (none, strings)
  | some .Jump => .ok (none, strings)
  | some .Reset => .ok (none, strings)
  | none => .ok (none, strings)

/-! ## Byte stream framer (`src/lib.rs`, `enum State` / `Decoder::next_item`) -/

/-- `enum State { Begin(), Type(), Len(), Data(), End() }`.  `Ty` stands
for the source's `Type` variant (a reserved word here); `End` is present
in the source but never entered by any transition. -/
inductive State : Type where
  | Begin
  | Ty
  | Len
  | Data
  | End
deriving DecidableEq, Repr

/-- The persistent fields of `struct Decoder` that survive between reads.
The byte source, read buffer and buffer cursor (`reader`, `buffer`,
`index`, `buffer_len`) are modelled by the chunk-list driver
`processChunks` below. -/
structure Decoder : Type where
  state : State
  data_type : Option DatasetType
  len : Nat
  npow : Nat
  chunk : List Nat
  size : Nat
  strings : Strings
  prev : Option Dataset
deriving DecidableEq, Repr

/-- `Decoder::new`'s initial persistent state. -/
def newDecoder : Decoder :=
  { state := .Begin, data_type := none, len := 0, npow := 1,
    chunk := [], size := 0, strings := [], prev := none }

/-- The frame-type table of `next_item` (`State::Type` arm). -/
def typeOfByte (b : Nat) : Option DatasetType :=
  if b = 0x10 then some .Node
  else if b = 0x11 then some .Way
  else if b = 0x12 then some .Relation
  else if b = 0xdb then some .BBox
  else if b = 0xdc then some .Timestamp
  else if b = 0xe0 then some .Header
  else if b = 0xee then some .Sync
  else if b = 0xef then some .Jump
  else if b = 0xff then some .Reset
  else none

/-- The `State::Type` transition: a repeated `0xff` is a reset marker that
clears the previous-record memory and stays in the type state; any other
byte selects the frame type and moves to the length state.  This
transition never fails and never emits a record. -/
def stepType (d : Decoder) (b : Nat) : Decoder :=
  if b = 0xff then { d with prev := none }
  else { d with state := .Len, data_type := typeOfByte b }

/-- Process one input byte of `Decoder::next_item`'s inner loop.  The
`State::Data` arm consumes its body bytes one at a time (the source grabs
the available sub-slice in one step, which appends the same bytes to
`chunk`); when the declared body length is already complete (a zero-length
body), the source's slice grab is empty, the frame is flushed, and the
current byte is then re-examined in the type state — here inlined as
`stepType` after the flush. -/
def stepByte (d : Decoder) (b : Nat) : PResult (Decoder × Option Dataset) :=
  match d.state with
  | .Begin =>
    if b ≠ 0xff then .err (.UnexpectedByte "first byte in frame" 0xff b)
    else .ok ({ d with state := .Ty }, none)
  | .Ty => .ok (stepType d b, none)
  | .Len =>
    -- len is a usize and npow a u64 (both 64-bit); the additions and
    -- multiplications wrap modulo 2^64 (release semantics; a length
    -- prefix of ten or more bytes would overflow)
    let len' := (d.len + (b &&& 0x7f) * d.npow) % 2 ^ 64
    if b < 0x80 then .ok ({ d with len := len', npow := 1, state := .Data }, none)
    else .ok ({ d with len := len', npow := (d.npow * 0x80) % 2 ^ 64 }, none)
  | .Data =>
    if d.len ≤ d.size then
      -- body already complete (len = 0): flush, then the byte is a type byte
      match flushD d.data_type d.chunk d.prev d.strings with
      | .err e => .err e
      | .crash => .crash
      | .ok (res, strings') =>
        let prev' := match res with | some data => some data | none => d.prev
        let d1 : Decoder :=
          { d with state := .Ty, len := 0, size := 0, chunk := [], strings := strings', prev := prev' }
        .ok (stepType d1 b, res)
    else
      let chunk' := d.chunk ++ [b]
      let size' := d.size + 1
      if d.len ≤ size' then
        match flushD d.data_type chunk' d.prev d.strings with
        | .err e => .err e
        | .crash => .crash
        | .ok (res, strings') =>
          let prev' := match res with | some data => some data | none => d.prev
          let d1 : Decoder :=
            { d with state := .Ty, len := 0, size := 0, chunk := [], strings := strings', prev := prev' }
          .ok (d1, res)
      else .ok ({ d with chunk := chunk', size := size' }, none)
  | .End =>
    if b ≠ 0xfe then .err (.UnexpectedByte "last byte in frame" 0xf3 b)
    else .ok (d, none)

/-- Run the inner loop of `next_item` over one read's buffer, collecting
every record emitted along the way (the source returns to its caller after
each record and resumes at the saved cursor; the record sequence is
identical). -/
def processBytes (d : Decoder) : List Nat → PResult (Decoder × List Dataset)
  | [] => .ok (d, [])
  | b :: rest =>
    match stepByte d b with
    | .err e => .err e
    | .crash => .crash
    | .ok (d', out) =>
      match processBytes d' rest with
      | .err e => .err e
      | .crash => .crash
      | .ok (d'', outs) => .ok (d'', out.toList ++ outs)

/-- Drive the decoder over the sequence of reads delivered by the byte
source.  An empty read models `reader.read` returning `0`: `next_item`
breaks out of its loop and returns `Ok(None)`, ending the stream — in any
framer state, even mid-frame. -/
def processChunks (d : Decoder) : List (List Nat) → PResult (Decoder × List Dataset)
  | [] => .ok (d, [])
  | c :: rest =>
    if c = [] then .ok (d, [])
    else
      match processBytes d c with
      | .err e => .err e
      | .crash => .crash
      | .ok (d', outs) =>
        match processChunks d' rest with
        | .err e => .err e
        | .crash => .crash
        | .ok (d'', outs') => .ok (d'', outs ++ outs')

/-- Decode a whole session: the record sequence produced by repeatedly
polling the stream built by `decode`, up to the first error (`err`), Rust
panic (`crash`), or clean end of input (`ok`). -/
def decodeChunks (chunks : List (List Nat)) : PResult (List Dataset) :=
  match processChunks newDecoder chunks with
  | .err e => .err e
  | .crash => .crash
  | .ok (_, outs) => .ok outs

/-! ## Helper lemmas: varint codec -/

/-- The value of a complete little-endian base-128 varint encoding:
`varintVal l = Σ i, (l[i] &&& 0x7f) <<< (7*i)` (note `x <<< 7 = x * 2^7`). -/
def varintVal : List Nat → Nat
  | [] => 0
  | b :: r => (b &&& 0x7f) + (varintVal r) <<< 7

theorem unsignedGo_ok_bounds {l : List Nat} {i v sh n w : Nat}
    (h : unsignedGo i v sh l = .ok (n, w)) : i < n ∧ n ≤ i + l.length := by
  induction l generalizing i v sh with
  | nil => simp [unsignedGo] at h
  | cons b rest ih =>
    rw [unsignedGo] at h
    by_cases hb : b < 0x80
    · simp [hb] at h
      obtain ⟨h1, _⟩ := h
      simp only [List.length_cons]
      omega
    · simp [hb] at h
      have := ih h
      simp only [List.length_cons]
      omega

theorem unsignedP_ok_bounds {l : List Nat} {n w : Nat}
    (h : unsignedP l = .ok (n, w)) : 1 ≤ n ∧ n ≤ l.length := by
  have := unsignedGo_ok_bounds h
  omega

theorem signedGo_ok_bounds {l : List Nat} {i v sh n : Nat} {w : Int}
    (h : signedGo i v sh l = .ok (n, w)) : i < n ∧ n ≤ i + l.length := by
  induction l generalizing i v sh with
  | nil => simp [signedGo] at h
  | cons b rest ih =>
    rw [signedGo] at h
    by_cases hb : b < 0x80
    · simp [hb] at h
      obtain ⟨h1, _⟩ := h
      simp only [List.length_cons]
      omega
    · simp [hb] at h
      have := ih h
      simp only [List.length_cons]
      omega

theorem signedP_ok_bounds {l : List Nat} {n : Nat} {w : Int}
    (h : signedP l = .ok (n, w)) : 1 ≤ n ∧ n ≤ l.length := by
  have := signedGo_ok_bounds h
  omega

/-- The wrapped varint sum actually accumulated by the `u64` loop when the
first contribution is shifted by `sh`: each byte contributes
`((b &&& 0x7f) <<< (sh % 64)) % 2 ^ 64` — the `u64` shift discards the
bits pushed above bit 63, and a shift amount of 64 or more is masked as
in release builds. -/
def varintValFrom (sh : Nat) : List Nat → Nat
  | [] => 0
  | b :: r => ((b &&& 0x7f) <<< (sh % 64)) % 2 ^ 64 + varintValFrom (sh + 7) r

/-- The 64-bit value returned for a complete varint encoding (the wrapped
sum of the per-byte contributions). -/
def varintValWrap (l : List Nat) : Nat := varintValFrom 0 l % 2 ^ 64

theorem unsignedGo_spec (pre : List Nat) (t : Nat) (rest : List Nat)
    (i v sh : Nat) (hpre : ∀ b ∈ pre, 0x80 ≤ b) (ht : t < 0x80) :
    unsignedGo i v sh (pre ++ t :: rest) =
      .ok (i + pre.length + 1, (v + varintValFrom sh (pre ++ [t])) % 2 ^ 64) := by
  induction pre generalizing i v sh with
  | nil => simp [unsignedGo, ht, varintValFrom, Nat.mod_add_mod]
  | cons a pre' ih =>
    have ha : 0x80 ≤ a := hpre a (by simp)
    have hpre' : ∀ b ∈ pre', 0x80 ≤ b := fun b hb => hpre b (by simp [hb])
    rw [List.cons_append, unsignedGo]
    simp only [show ¬(a < 0x80) by omega, if_false]
    rw [ih _ _ _ hpre']
    have hlen : i + 1 + pre'.length + 1 = i + (a :: pre').length + 1 := by
      simp only [List.length_cons]
      omega
    have hval : ((v + ((a &&& 0x7f) <<< (sh % 64)) % 2 ^ 64) % 2 ^ 64 +
          varintValFrom (sh + 7) (pre' ++ [t])) % 2 ^ 64
        = (v + varintValFrom sh (a :: pre' ++ [t])) % 2 ^ 64 := by
      simp only [varintValFrom, List.cons_append]
      rw [Nat.mod_add_mod, Nat.add_assoc]
      rfl
    rw [hlen, hval]

/-- On a list whose shifts all stay below 64 (at most ten varint bytes
starting from shift `sh`), the wrapped sum is exactly the unbounded sum
`varintVal` shifted by `sh` and reduced modulo 2^64. -/
theorem varintValFrom_short (l : List Nat) (sh : Nat)
    (hl : sh + 7 * l.length ≤ 70) :
    varintValFrom sh l % 2 ^ 64 = (varintVal l <<< sh) % 2 ^ 64 := by
  induction l generalizing sh with
  | nil => simp [varintValFrom, varintVal]
  | cons b r ih =>
    have hsh : sh < 64 := by
      simp only [List.length_cons] at hl
      omega
    have hsh' : sh % 64 = sh := Nat.mod_eq_of_lt hsh
    simp only [varintValFrom, varintVal, hsh']
    rw [Nat.mod_add_mod]
    rw [Nat.add_mod ((b &&& 0x7f) <<< sh) (varintValFrom (sh + 7) r)]
    rw [ih (sh + 7) (by simp only [List.length_cons] at hl; omega)]
    rw [← Nat.add_mod]
    congr 1
    simp only [Nat.shiftLeft_eq, Nat.pow_add]
    generalize varintVal r = V
    ring

/-- For encodings of at most ten bytes the value returned by the decoder
is the claim's unbounded sum reduced modulo 2^64. -/
theorem varintValWrap_short (l : List Nat) (hl : l.length ≤ 10) :
    varintValWrap l = varintVal l % 2 ^ 64 := by
  unfold varintValWrap
  rw [varintValFrom_short l 0 (by omega)]
  simp

/-- When the raw value fits in 63 bits the sign transform reduces to the
familiar non-negative zigzag formula `r / 2` (even) and `-(r / 2) - 1`
(odd). -/
theorem rustSignedTransform_small (r : Nat) (hr : r < 2 ^ 63) :
    rustSignedTransform (u64AsI64 r) =
      if r % 2 = 0 then ((r / 2 : Nat) : Int) else -((r / 2 : Nat) : Int) - 1 := by
  have hz : u64AsI64 r = (r : Int) := by
    simp only [u64AsI64]
    rw [Nat.mod_eq_of_lt (show r < 2 ^ 64 by omega)]
    rw [if_pos hr]
  rw [hz]
  unfold rustSignedTransform
  have h2 : ((r : Int)).tdiv 2 = ((r / 2 : Nat) : Int) := by
    exact_mod_cast (Int.ofNat_tdiv r 2).symm
  by_cases hp : r % 2 = 0
  · rw [if_pos hp, if_pos (show (r : Int) % 2 = 0 by omega), h2]
  · rw [if_neg hp, if_neg (show ¬((r : Int) % 2 = 0) by omega), Int.neg_tdiv, h2]

theorem unsignedGo_err (l : List Nat) (i v sh : Nat) (h : ∀ b ∈ l, 0x80 ≤ b) :
    unsignedGo i v sh l = .err .UnterminatedUnsignedInteger := by
  induction l generalizing i v sh with
  | nil => simp [unsignedGo]
  | cons b rest ih =>
    have hb : 0x80 ≤ b := h b (by simp)
    rw [unsignedGo]
    simp only [show ¬(b < 0x80) by omega, if_false]
    exact ih _ _ _ (fun c hc => h c (by simp [hc]))

theorem signedGo_err (l : List Nat) (i v sh : Nat) (h : ∀ b ∈ l, 0x80 ≤ b) :
    signedGo i v sh l = .err .UnterminatedSignedInteger := by
  induction l generalizing i v sh with
  | nil => simp [signedGo]
  | cons b rest ih =>
    have hb : 0x80 ≤ b := h b (by simp)
    rw [signedGo]
    simp only [show ¬(b < 0x80) by omega, if_false]
    exact ih _ _ _ (fun c hc => h c (by simp [hc]))

/-- The signed loop is the unsigned loop followed by reinterpreting the
64-bit raw pattern as a signed value and applying the sign transform:
identical byte consumption, identical raw accumulation. -/
theorem signedGo_eq_unsignedGo (l : List Nat) (i v sh : Nat) (n r : Nat)
    (h : unsignedGo i v sh l = .ok (n, r)) :
    signedGo i v sh l = .ok (n, rustSignedTransform (u64AsI64 r)) := by
  induction l generalizing i v sh with
  | nil => simp [unsignedGo] at h
  | cons b rest ih =>
    rw [unsignedGo] at h
    rw [signedGo]
    by_cases hb : b < 0x80
    · simp only [if_pos hb] at h ⊢
      simp only [PResult.ok.injEq, Prod.mk.injEq] at h
      obtain ⟨h1, h2⟩ := h
      subst h1
      subst h2
      rfl
    · simp only [if_neg hb] at h ⊢
      exact ih _ _ _ h

/-! ## Helper lemmas: interning table -/

theorem cachePush_length_le {s : Strings} (a b : List Nat)
    (h : s.length ≤ 15000) : (cachePush s a b).length ≤ 15000 := by
  simp only [cachePush, List.length_cons]
  by_cases h15 : 15000 < s.length + 1
  · simp only [if_pos h15, List.length_dropLast, List.length_cons]
    omega
  · simp only [if_neg h15, List.length_cons]
    omega

theorem cachePush_eq_take {s : Strings} (a b : List Nat) (h : s.length ≤ 15000) :
    cachePush s a b = ((a, b) :: s).take 15000 := by
  simp only [cachePush, List.length_cons]
  by_cases h15 : 15000 < s.length + 1
  · simp only [if_pos h15]
    rw [List.dropLast_eq_take]
    congr 1
    simp only [List.length_cons]
    omega
  · simp only [if_neg h15]
    rw [List.take_of_length_le]
    simp only [List.length_cons]
    omega

theorem take_append_take (X Y : List (List Nat × List Nat)) (n : Nat) :
    (X ++ Y.take n).take n = (X ++ Y).take n := by
  rw [List.take_append_eq_append_take, List.take_append_eq_append_take, List.take_take]
  congr 1
  rw [Nat.min_eq_left]
  omega

theorem foldl_cachePush (L : List (List Nat × List Nat)) (s : Strings)
    (h : s.length ≤ 15000) :
    List.foldl (fun t p => cachePush t p.1 p.2) s L = (L.reverse ++ s).take 15000 := by
  induction L generalizing s with
  | nil =>
    simp only [List.foldl_nil, List.reverse_nil, List.nil_append]
    rw [List.take_of_length_le h]
  | cons p L' ih =>
    simp only [List.foldl_cons]
    rw [ih (cachePush s p.1 p.2) (cachePush_length_le _ _ h)]
    rw [cachePush_eq_take _ _ h]
    rw [show (p.1, p.2) = p from rfl]
    rw [take_append_take]
    simp only [List.reverse_cons, List.append_assoc, List.cons_append, List.nil_append]

/-! ## Helper lemmas: terminator search -/

theorem position0_of_not_mem {l : List Nat} (h : 0 ∉ l) : position0 l = none := by
  induction l with
  | nil => rfl
  | cons b rest ih =>
    have hb : b ≠ 0 := by intro hb0; exact h (by simp [hb0])
    rw [position0, if_neg hb, ih (fun hm => h (by simp [hm]))]
    rfl

theorem position0_append_zero (l r : List Nat) (h : 0 ∉ l) :
    position0 (l ++ 0 :: r) = some l.length := by
  induction l with
  | nil => simp [position0]
  | cons b rest ih =>
    have hb : b ≠ 0 := by intro hb0; exact h (by simp [hb0])
    rw [List.cons_append, position0, if_neg hb,
      ih (fun hm => h (by simp [hm]))]
    rfl

theorem drop_append_cons (l : List Nat) (b : Nat) (r : List Nat) :
    (l ++ b :: r).drop (l.length + 1) = r := by
  induction l with
  | nil => simp
  | cons a l' ih => simp [ih]

/-! ## Helper lemmas: the framer composes over read boundaries -/

/-- Processing a concatenated buffer equals processing the two halves in
sequence from the carried state: the persistent fields of `Decoder` hold
everything the inner loop needs between reads. -/
theorem processBytes_append (d : Decoder) (xs ys : List Nat) :
    processBytes d (xs ++ ys) =
      match processBytes d xs with
      | .err e => .err e
      | .crash => .crash
      | .ok (d', o1) =>
        match processBytes d' ys with
        | .err e => .err e
        | .crash => .crash
        | .ok (d'', o2) => .ok (d'', o1 ++ o2) := by
  induction xs generalizing d with
  | nil =>
    simp only [List.nil_append, processBytes]
    match processBytes d ys with
    | .err e => rfl
    | .crash => rfl
    | .ok (d'', o2) => simp
  | cons b xs' ih =>
    rw [List.cons_append, processBytes, processBytes]
    match stepByte d b with
    | .err e => rfl
    | .crash => rfl
    | .ok (d', out) =>
      simp only
      rw [ih d']
      match processBytes d' xs' with
      | .err e => rfl
      | .crash => rfl
      | .ok (d2, o2) =>
        simp only
        match processBytes d2 ys with
        | .err e => rfl
        | .crash => rfl
        | .ok (d3, o3) => simp

/-- With no zero-length reads, chunked processing equals processing the
concatenation of all reads. -/
theorem processChunks_eq_join (d : Decoder) (cs : List (List Nat))
    (h : ∀ c ∈ cs, c ≠ []) :
    processChunks d cs = processBytes d cs.flatten := by
  induction cs generalizing d with
  | nil => simp [processChunks, processBytes]
  | cons c rest ih =>
    have hc : c ≠ [] := h c (by simp)
    rw [processChunks, List.flatten_cons, processBytes_append]
    simp only [if_neg hc]
    match processBytes d c with
    | .err e => rfl
    | .crash => rfl
    | .ok (d', outs) =>
      simp only
      rw [ih d' (fun c' hc' => h c' (by simp [hc']))]

/-! ## Helper lemmas: the interning table never exceeds its cap -/

theorem infoP_strings_le {buf : List Nat} {pid : Option Nat} {pinfo : Option Info}
    {s : Strings} {off : Nat} {pr : Nat × Option Info} {s' : Strings}
    (h : infoP buf pid pinfo s = .ok (off, pr, s')) (hs : s.length ≤ 15000) :
    s'.length ≤ 15000 := by
  unfold infoP at h
  repeat' first
    | split at h
    | simp only [PResult.ok.injEq, Prod.mk.injEq, reduceCtorEq] at h
  all_goals obtain ⟨-, -, h3⟩ := h
  all_goals subst h3
  all_goals first
    | exact hs
    | exact cachePush_length_le _ _ hs

theorem tagsGo_strings_le (fuel : Nat) : ∀ (offset : Nat) (rem : List Nat) (tags : Tags)
    (s : Strings) (off : Nat) (tg : Tags) (s' : Strings),
    tagsGo fuel offset rem tags s = .ok (off, tg, s') → s.length ≤ 15000 →
    s'.length ≤ 15000 := by
  induction fuel with
  | zero => intro _ _ _ _ _ _ _ h _; simp [tagsGo] at h
  | succ fuel ih =>
    intro offset rem tags s off tg s' h hs
    match rem with
    | [] =>
      simp only [tagsGo, PResult.ok.injEq, Prod.mk.injEq] at h
      obtain ⟨-, -, h3⟩ := h
      subst h3
      exact hs
    | b :: rest =>
      rw [tagsGo] at h
      repeat' first
        | split at h
        | simp only [PResult.ok.injEq, Prod.mk.injEq, reduceCtorEq] at h
      all_goals first
        | exact ih _ _ _ _ _ _ _ h hs
        | exact ih _ _ _ _ _ _ _ h (cachePush_length_le _ _ hs)

theorem membersGo_strings_le (fuel : Nat) : ∀ (offset : Nat) (rem : List Nat)
    (ref_end blen prev_id : Nat) (members : List RelationMember) (s : Strings)
    (off : Nat) (ms : List RelationMember) (rm : List Nat) (s' : Strings),
    membersGo fuel offset rem ref_end blen prev_id members s = .ok (off, ms, rm, s') →
    s.length ≤ 15000 → s'.length ≤ 15000 := by
  induction fuel with
  | zero => intro _ _ _ _ _ _ _ _ _ _ _ h _; simp [membersGo] at h
  | succ fuel ih =>
    intro offset rem ref_end blen prev_id members s off ms rm s' h hs
    rw [membersGo] at h
    repeat' first
      | split at h
      | simp only [PResult.ok.injEq, Prod.mk.injEq, reduceCtorEq] at h
    all_goals first
      | exact ih _ _ _ _ _ _ _ _ _ _ _ h hs
      | exact ih _ _ _ _ _ _ _ _ _ _ _ h (cachePush_length_le _ _ hs)
      | (obtain ⟨-, -, -, h4⟩ := h
         subst h4
         exact hs)

theorem flushNodeD_strings_le {buf : List Nat} {prev : Option Dataset}
    {s : Strings} {out : Option Dataset} {s' : Strings}
    (h : flushNodeD buf prev s = .ok (out, s')) (hs : s.length ≤ 15000) :
    s'.length ≤ 15000 := by
  unfold flushNodeD at h
  cases hinfo : infoP buf (prev.bind Dataset.get_id) (prev.bind Dataset.get_info) s with
  | err e => rw [hinfo] at h; cases h
  | crash => rw [hinfo] at h; cases h
  | ok v =>
    obtain ⟨si, ⟨id, inf⟩, s1⟩ := v
    rw [hinfo] at h
    have hs1 : s1.length ≤ 15000 := infoP_strings_le hinfo hs
    simp only at h
    repeat' first
      | split at h
      | simp only [PResult.ok.injEq, Prod.mk.injEq, reduceCtorEq] at h
    all_goals obtain ⟨-, h2⟩ := h
    all_goals subst h2
    · exact hs1
    · exact tagsGo_strings_le _ _ _ _ _ _ _ _ (by assumption) hs1

theorem flushWayD_strings_le {buf : List Nat} {prev : Option Dataset}
    {s : Strings} {out : Option Dataset} {s' : Strings}
    (h : flushWayD buf prev s = .ok (out, s')) (hs : s.length ≤ 15000) :
    s'.length ≤ 15000 := by
  unfold flushWayD at h
  cases hinfo : infoP buf (prev.bind Dataset.get_id) (prev.bind Dataset.get_info) s with
  | err e => rw [hinfo] at h; cases h
  | crash => rw [hinfo] at h; cases h
  | ok v =>
    obtain ⟨si, ⟨id, inf⟩, s1⟩ := v
    rw [hinfo] at h
    have hs1 : s1.length ≤ 15000 := infoP_strings_le hinfo hs
    simp only at h
    repeat' first
      | split at h
      | simp only [PResult.ok.injEq, Prod.mk.injEq, reduceCtorEq] at h
    all_goals obtain ⟨-, h2⟩ := h
    all_goals subst h2
    · exact hs1
    · exact tagsGo_strings_le _ _ _ _ _ _ _ _ (by assumption) hs1

theorem flushRelationD_strings_le {buf : List Nat} {prev : Option Dataset}
    {s : Strings} {out : Option Dataset} {s' : Strings}
    (h : flushRelationD buf prev s = .ok (out, s')) (hs : s.length ≤ 15000) :
    s'.length ≤ 15000 := by
  unfold flushRelationD at h
  cases hinfo : infoP buf (prev.bind Dataset.get_id) (prev.bind Dataset.get_info) s with
  | err e => rw [hinfo] at h; cases h
  | crash => rw [hinfo] at h; cases h
  | ok v =>
    obtain ⟨si, ⟨id, inf⟩, s1⟩ := v
    rw [hinfo] at h
    have hs1 : s1.length ≤ 15000 := infoP_strings_le hinfo hs
    simp only at h
    split at h
    · simp only [PResult.ok.injEq, Prod.mk.injEq] at h
      obtain ⟨-, h2⟩ := h
      subst h2
      exact hs1
    · cases hsl : sliceFromP buf si with
      | err e => rw [hsl] at h; cases h
      | crash => rw [hsl] at h; cases h
      | ok rem1 =>
        rw [hsl] at h
        simp only at h
        cases hrl : unsignedP rem1 with
        | err e => rw [hrl] at h; cases h
        | crash => rw [hrl] at h; cases h
        | ok v2 =>
          obtain ⟨sr, reflen⟩ := v2
          rw [hrl] at h
          simp only at h
          cases hmb : membersGo (si + sr + reflen + 1) (si + sr) (rem1.drop sr)
              (si + sr + reflen) buf.length (prevRelMemberId prev) [] s1 with
          | err e => rw [hmb] at h; cases h
          | crash => rw [hmb] at h; cases h
          | ok v3 =>
            obtain ⟨off2, members, rem2, s2⟩ := v3
            rw [hmb] at h
            have hs2 : s2.length ≤ 15000 := membersGo_strings_le _ _ _ _ _ _ _ _ _ _ _ _ hmb hs1
            simp only at h
            split at h
            · cases h
            · cases htg : tagsP rem2 s2 with
              | err e => rw [htg] at h; cases h
              | crash => rw [htg] at h; cases h
              | ok v4 =>
                obtain ⟨c3, tg, s3⟩ := v4
                rw [htg] at h
                simp only [PResult.ok.injEq, Prod.mk.injEq] at h
                obtain ⟨-, h2⟩ := h
                subst h2
                exact tagsGo_strings_le _ _ _ _ _ _ _ _ htg hs2

theorem flushD_strings_le {dt : Option DatasetType} {chunk : List Nat}
    {prev : Option Dataset} {s : Strings} {out : Option Dataset} {s' : Strings}
    (h : flushD dt chunk prev s = .ok (out, s')) (hs : s.length ≤ 15000) :
    s'.length ≤ 15000 := by
  cases dt with
  | none =>
    simp only [flushD, PResult.ok.injEq, Prod.mk.injEq] at h
    obtain ⟨-, h2⟩ := h
    subst h2
    exact hs
  | some t =>
    cases t with
    | Node => exact flushNodeD_strings_le h hs
    | Way => exact flushWayD_strings_le h hs
    | Relation => exact flushRelationD_strings_le h hs
    | Timestamp =>
      simp only [flushD] at h
      repeat' first
        | split at h
        | simp only [PResult.ok.injEq, Prod.mk.injEq, reduceCtorEq] at h
      obtain ⟨-, h2⟩ := h
      subst h2
      exact hs
    | BBox =>
      simp only [flushD] at h
      repeat' first
        | split at h
        | simp only [PResult.ok.injEq, Prod.mk.injEq, reduceCtorEq] at h
      obtain ⟨-, h2⟩ := h
      subst h2
      exact hs
    | Header =>
      simp only [flushD, PResult.ok.injEq, Prod.mk.injEq] at h
      obtain ⟨-, h2⟩ := h
      subst h2
      exact hs
    | Sync =>
      simp only [flushD, PResult.ok.injEq, Prod.mk.injEq] at h
      obtain ⟨-, h2⟩ := h
      subst h2
      exact hs
    | Jump =>
      simp only [flushD, PResult.ok.injEq, Prod.mk.injEq] at h
      obtain ⟨-, h2⟩ := h
      subst h2
      exact hs
    | Reset =>
      simp only [flushD, PResult.ok.injEq, Prod.mk.injEq] at h
      obtain ⟨-, h2⟩ := h
      subst h2
      exact hs

theorem stepByte_strings_le {d : Decoder} {b : Nat} {d' : Decoder}
    {out : Option Dataset} (h : stepByte d b = .ok (d', out))
    (hs : d.strings.length ≤ 15000) : d'.strings.length ≤ 15000 := by
  unfold stepByte at h
  repeat' first
    | split at h
    | simp only [PResult.ok.injEq, Prod.mk.injEq, reduceCtorEq] at h
  all_goals obtain ⟨h1, -⟩ := h
  all_goals subst h1
  all_goals first
    | exact hs
    | (unfold stepType
       split
       all_goals first
         | exact hs
         | exact flushD_strings_le (by assumption) hs)
    | exact flushD_strings_le (by assumption) hs

theorem processBytes_strings_le {d : Decoder} {bs : List Nat} {d' : Decoder}
    {outs : List Dataset} (h : processBytes d bs = .ok (d', outs))
    (hs : d.strings.length ≤ 15000) : d'.strings.length ≤ 15000 := by
  induction bs generalizing d outs with
  | nil =>
    simp only [processBytes, PResult.ok.injEq, Prod.mk.injEq] at h
    obtain ⟨h1, -⟩ := h
    subst h1
    exact hs
  | cons b rest ih =>
    rw [processBytes] at h
    cases hsb : stepByte d b with
    | err e => rw [hsb] at h; cases h
    | crash => rw [hsb] at h; cases h
    | ok v =>
      obtain ⟨d1, o1⟩ := v
      rw [hsb] at h
      simp only at h
      cases hpb : processBytes d1 rest with
      | err e => rw [hpb] at h; cases h
      | crash => rw [hpb] at h; cases h
      | ok v2 =>
        obtain ⟨d2, o2⟩ := v2
        rw [hpb] at h
        simp only [PResult.ok.injEq, Prod.mk.injEq] at h
        obtain ⟨h1, -⟩ := h
        subst h1
        exact ih hpb (stepByte_strings_le hsb hs)

/-! ## Helper lemmas: symbolic evaluation of the tags parser -/

/-- Evaluating `parse::tags` on a body holding one inline key/value pair
with both terminators present: the pair lands in the tag map, and in the
interning table exactly when its combined length is at most 250 bytes. -/
theorem tagsP_inline_terminated (k v : List Nat) (s : Strings)
    (hk : 0 ∉ k) (hv : 0 ∉ v) (huk : validUtf8 k = true) (huv : validUtf8 v = true) :
    tagsP ([0] ++ k ++ [0] ++ v ++ [0]) s =
      .ok (k.length + v.length + 3, [(k, v)],
        if k.length + v.length ≤ 250 then cachePush s k v else s) := by
  have hbuf : ([0] ++ k ++ [0] ++ v ++ [0] : List Nat) = 0 :: (k ++ 0 :: (v ++ [0])) := by
    simp
  rw [tagsP, hbuf]
  rw [tagsGo]
  have h0 : unsignedP (0 :: (k ++ 0 :: (v ++ [0]))) = .ok (1, 0) := rfl
  rw [h0]
  simp only [List.drop_succ_cons, List.drop_zero, if_pos rfl]
  rw [position0_append_zero k (v ++ [0]) hk]
  simp only [List.take_left, huk, if_pos rfl, List.length_cons]
  rw [show k.length + 1 = k.length + 1 from rfl, drop_append_cons k 0 (v ++ [0])]
  rw [position0_append_zero v [] hv]
  simp only [Option.getD_some, List.take_left, huv, if_pos rfl]
  rw [drop_append_cons v 0 []]
  have hlen : (k ++ 0 :: (v ++ [0])).length = (k.length + (v.length + 2) - 1) + 1 := by
    simp [List.length_append, List.length_cons]
    omega
  rw [hlen, tagsGo]
  simp only [if_true, PResult.ok.injEq, Prod.mk.injEq, tagsInsert, List.filter_nil,
    List.nil_append]
  exact ⟨by omega, trivial⟩

/-- Evaluating `parse::tags` on a body whose final tag value reaches the
end of the body without its terminator: the value extends to the last byte
and the result is identical to the terminated body's. -/
theorem tagsP_inline_unterminated (k v : List Nat) (s : Strings)
    (hk : 0 ∉ k) (hv : 0 ∉ v) (huk : validUtf8 k = true) (huv : validUtf8 v = true) :
    tagsP ([0] ++ k ++ [0] ++ v) s =
      .ok (k.length + v.length + 3, [(k, v)],
        if k.length + v.length ≤ 250 then cachePush s k v else s) := by
  have hbuf : ([0] ++ k ++ [0] ++ v : List Nat) = 0 :: (k ++ 0 :: v) := by simp
  rw [tagsP, hbuf]
  rw [tagsGo]
  have h0 : unsignedP (0 :: (k ++ 0 :: v)) = .ok (1, 0) := rfl
  rw [h0]
  simp only [List.drop_succ_cons, List.drop_zero, if_pos rfl]
  rw [position0_append_zero k v hk]
  simp only [List.take_left, huk, if_pos rfl, List.length_cons]
  rw [drop_append_cons k 0 v]
  rw [position0_of_not_mem hv]
  simp only [Option.getD_none, List.take_length, huv, if_pos rfl]
  rw [List.drop_eq_nil_of_le (by omega)]
  have hlen : (k ++ 0 :: v).length = (k.length + (v.length + 1) - 1) + 1 := by
    simp [List.length_append, List.length_cons]
    omega
  rw [hlen, tagsGo]
  simp only [if_true, PResult.ok.injEq, Prod.mk.injEq, tagsInsert, List.filter_nil,
    List.nil_append]
  exact ⟨by omega, trivial⟩

/-! ## Helper lemmas: identifier delta base -/

/-- The id returned by `parse::info` is always the first signed delta of
the body plus the supplied previous id (default 0), cast to `u64` —
whatever else the metadata section does. -/
theorem infoP_id {buf : List Nat} {pid : Option Nat} {pinfo : Option Info}
    {s : Strings} {off : Nat} {id : Nat} {inf : Option Info} {s' : Strings}
    (h : infoP buf pid pinfo s = .ok (off, (id, inf), s')) :
    ∃ n x, signedP buf = .ok (n, x) ∧ id = asU64 (x + u64AsI64 (pid.getD 0)) := by
  unfold infoP at h
  cases hs0 : signedP buf with
  | err e => rw [hs0] at h; cases h
  | crash => rw [hs0] at h; cases h
  | ok v =>
    obtain ⟨s0, x0⟩ := v
    rw [hs0] at h
    refine ⟨s0, x0, rfl, ?_⟩
    simp only at h
    repeat' first
      | split at h
      | simp only [PResult.ok.injEq, Prod.mk.injEq, reduceCtorEq] at h
    all_goals obtain ⟨-, ⟨hid, -⟩, -⟩ := h
    all_goals exact hid.symm

theorem flushNodeD_id {buf : List Nat} {prev : Option Dataset} {s : Strings}
    {rec : Dataset} {s' : Strings} (h : flushNodeD buf prev s = .ok (some rec, s')) :
    ∃ n x, signedP buf = .ok (n, x) ∧
      rec.get_id = some (asU64 (x + u64AsI64 ((prev.bind Dataset.get_id).getD 0))) := by
  unfold flushNodeD at h
  cases hinfo : infoP buf (prev.bind Dataset.get_id) (prev.bind Dataset.get_info) s with
  | err e => rw [hinfo] at h; cases h
  | crash => rw [hinfo] at h; cases h
  | ok v =>
    obtain ⟨si, ⟨id, inf⟩, s1⟩ := v
    rw [hinfo] at h
    obtain ⟨n, x, hsx, hid⟩ := infoP_id hinfo
    refine ⟨n, x, hsx, ?_⟩
    simp only at h
    repeat' first
      | split at h
      | simp only [PResult.ok.injEq, Prod.mk.injEq, Option.some.injEq, reduceCtorEq] at h
    all_goals obtain ⟨h1, -⟩ := h
    all_goals subst h1
    all_goals rw [Dataset.get_id, hid]

theorem flushWayD_id {buf : List Nat} {prev : Option Dataset} {s : Strings}
    {rec : Dataset} {s' : Strings} (h : flushWayD buf prev s = .ok (some rec, s')) :
    ∃ n x, signedP buf = .ok (n, x) ∧
      rec.get_id = some (asU64 (x + u64AsI64 ((prev.bind Dataset.get_id).getD 0))) := by
  unfold flushWayD at h
  cases hinfo : infoP buf (prev.bind Dataset.get_id) (prev.bind Dataset.get_info) s with
  | err e => rw [hinfo] at h; cases h
  | crash => rw [hinfo] at h; cases h
  | ok v =>
    obtain ⟨si, ⟨id, inf⟩, s1⟩ := v
    rw [hinfo] at h
    obtain ⟨n, x, hsx, hid⟩ := infoP_id hinfo
    refine ⟨n, x, hsx, ?_⟩
    simp only at h
    repeat' first
      | split at h
      | simp only [PResult.ok.injEq, Prod.mk.injEq, Option.some.injEq, reduceCtorEq] at h
    all_goals obtain ⟨h1, -⟩ := h
    all_goals subst h1
    all_goals rw [Dataset.get_id, hid]

theorem flushRelationD_id {buf : List Nat} {prev : Option Dataset} {s : Strings}
    {rec : Dataset} {s' : Strings} (h : flushRelationD buf prev s = .ok (some rec, s')) :
    ∃ n x, signedP buf = .ok (n, x) ∧
      rec.get_id = some (asU64 (x + u64AsI64 ((prev.bind Dataset.get_id).getD 0))) := by
  unfold flushRelationD at h
  cases hinfo : infoP buf (prev.bind Dataset.get_id) (prev.bind Dataset.get_info) s with
  | err e => rw [hinfo] at h; cases h
  | crash => rw [hinfo] at h; cases h
  | ok v =>
    obtain ⟨si, ⟨id, inf⟩, s1⟩ := v
    rw [hinfo] at h
    obtain ⟨n, x, hsx, hid⟩ := infoP_id hinfo
    refine ⟨n, x, hsx, ?_⟩
    simp only at h
    repeat' first
      | split at h
      | simp only [PResult.ok.injEq, Prod.mk.injEq, Option.some.injEq, reduceCtorEq] at h
    all_goals obtain ⟨h1, -⟩ := h
    all_goals subst h1
    all_goals rw [Dataset.get_id, hid]

/-! # Claim theorems -/

/-- C1, counterexample.  A Node with id 5 followed by a Way frame whose id
delta is 0: the spec demands the Way's id be the delta alone (no Way has
been emitted yet), i.e. 0, but the decoder's single `prev` slot makes the
Way's id delta apply against the Node's id, yielding 5. -/
theorem C1_counterexample :
    decodeChunks [[0xff, 0x10, 0x02, 0x0a, 0x00, 0x11, 0x02, 0x00, 0x00]] =
      .ok [.Node { id := 5, info := none, data := none, tags := [] },
           .Way { id := 5, info := none, data := none, tags := [] }] := by
  decide

/-- C1, amended.  For every Node, Way, or Relation frame flushed to a
record, the record's identifier equals the decoded signed delta plus the
identifier of the most-recently-emitted record of ANY entity type (zero
when there is none, after a reset, or when that record is a BBox or
Timestamp, which carry no id), reduced to 64 bits — not the id of the last
record of the same type. -/
theorem C1_id_delta_base (dt : DatasetType) (chunk : List Nat)
    (prev : Option Dataset) (strings : Strings) (out : Option Dataset)
    (strings' : Strings) (rec : Dataset)
    (hdt : dt = .Node ∨ dt = .Way ∨ dt = .Relation)
    (h : flushD (some dt) chunk prev strings = .ok (out, strings'))
    (hrec : out = some rec) :
    ∃ n x, signedP chunk = .ok (n, x) ∧
      rec.get_id = some (asU64 (x + u64AsI64 ((prev.bind Dataset.get_id).getD 0))) := by
  subst hrec
  rcases hdt with h1 | h1 | h1 <;> subst h1
  · exact flushNodeD_id h
  · exact flushWayD_id h
  · exact flushRelationD_id h

/-- C1 witness: the amended statement applied at a concrete Node frame. -/
theorem C1_id_delta_base_witness :
    ∃ n x, signedP [0x0a, 0x00] = .ok (n, x) ∧
      (Dataset.Node { id := 5, info := none, data := none, tags := [] }).get_id =
        some (asU64 (x + u64AsI64
          (((none : Option Dataset).bind Dataset.get_id).getD 0))) :=
  C1_id_delta_base .Node [0x0a, 0x00] none []
    (some (.Node { id := 5, info := none, data := none, tags := [] })) []
    (.Node { id := 5, info := none, data := none, tags := [] })
    (Or.inl rfl) (by decide) rfl

/-- C2.  Decoding is invariant under how the byte stream is split into
reads: delivering the bytes in any sequence of non-empty chunks produces
exactly the same outcome (records, error, or panic) as one single read,
because the framer's cursor, length accumulator, body buffer and table are
persistent decoder state. -/
theorem C2_split_invariance (chunks : List (List Nat))
    (h : ∀ c ∈ chunks, c ≠ []) :
    decodeChunks chunks = decodeChunks [chunks.flatten] := by
  unfold decodeChunks
  rw [processChunks_eq_join newDecoder chunks h]
  by_cases hj : chunks.flatten = []
  · rw [hj]
    simp [processChunks, processBytes]
  · rw [processChunks]
    simp only [if_neg hj]
    cases hpb : processBytes newDecoder chunks.flatten with
    | err e => rfl
    | crash => rfl
    | ok v =>
      obtain ⟨d', outs⟩ := v
      simp [processChunks]

/-- C2 witness: a concrete stream split into four reads decodes as the
whole stream read at once. -/
theorem C2_split_invariance_witness :
    decodeChunks [[0xff], [0x10, 0x02], [0x0a], [0x00]] =
      decodeChunks [[0xff, 0x10, 0x02, 0x0a, 0x00]] :=
  C2_split_invariance [[0xff], [0x10, 0x02], [0x0a], [0x00]] (by decide)

/-- C3, counterexample.  End of input in the middle of a frame (a Node
type byte and length 5 have been consumed, no body byte has arrived): the
decode sequence ends CLEANLY with no record and no error.  There is no
`TruncatedStream` variant in `DecodeError` at all, and `next_item` breaks
out of its loop on a zero-length read and returns `Ok(None)` regardless of
the framer state. -/
theorem C3_counterexample : decodeChunks [[0xff, 0x10, 0x05]] = .ok [] := by
  decide

/-- C3, amended.  A zero-length read ends the stream cleanly in every
framer state — with or without a partial frame pending; a mid-frame
truncation silently discards the partial frame while the records of all
completed frames are still delivered (here a Timestamp record followed by
a truncated Node frame). -/
theorem C3_eof_always_clean :
    (∀ (d : Decoder) (rest : List (List Nat)),
      processChunks d ([] :: rest) = .ok (d, [])) ∧
    decodeChunks [[0xff, 0xdc, 0x01, 0x05, 0x10, 0x03]] =
      .ok [.Timestamp { time := -3 }] := by
  constructor
  · intro d rest
    simp [processChunks]
  · decide

/-- C4, counterexample.  At the ten-byte encoding `[0x80 ×9, 0x01]` the
zigzag raw value wraps: the `i64` accumulator computes `1 << 63 =
i64::MIN` (both build modes discard the shifted-out bits), and the
decoder returns `-2^62`, while the claim's formula — the unsigned raw
value is `2^63`, even, so `r >>> 1` — demands `+2^62`. -/
theorem C4_counterexample :
    signedP [0x80, 0x80, 0x80, 0x80, 0x80, 0x80, 0x80, 0x80, 0x80, 0x01] =
      .ok (10, -(2 ^ 62 : Int)) ∧
    unsignedP [0x80, 0x80, 0x80, 0x80, 0x80, 0x80, 0x80, 0x80, 0x80, 0x01] =
      .ok (10, 2 ^ 63) ∧
    (if (2 ^ 63 : Nat) % 2 = 0 then (((2 ^ 63 : Nat) / 2 : Nat) : Int)
      else -(((2 ^ 63 : Nat) / 2 : Nat) : Int) - 1) = 2 ^ 62 ∧
    -(2 ^ 62 : Int) ≠ (2 ^ 62 : Int) :=
  ⟨by decide, by decide, by decide, by decide⟩

/-- C4, amended.  The signed decoder is the unsigned decoder followed by
reinterpreting the wrapped 64-bit raw value as a signed two's-complement
value `z` and zigzag-decoding it with truncating division (`z / 2` when
even, `(-z) / 2 - 1` when odd), with the same byte consumption; whenever
the raw value is below `2^63` this is exactly `r >>> 1` for even `r` and
`-(r >>> 1) - 1` for odd `r`.  `[0x03]` decodes to `-2`, `[0x00]` to
`0`, and a slice exhausted before a byte below `0x80` fails with
`UnterminatedSignedInteger`. -/
theorem C4_signed_zigzag :
    (∀ (buf : List Nat) (n r : Nat), unsignedP buf = .ok (n, r) →
      signedP buf = .ok (n, rustSignedTransform (u64AsI64 r))) ∧
    (∀ r : Nat, r < 2 ^ 63 →
      rustSignedTransform (u64AsI64 r) =
        if r % 2 = 0 then ((r / 2 : Nat) : Int) else -((r / 2 : Nat) : Int) - 1) ∧
    signedP [0x03] = .ok (1, -2) ∧
    signedP [0x00] = .ok (1, 0) ∧
    (∀ buf : List Nat, (∀ b ∈ buf, 0x80 ≤ b) →
      signedP buf = .err .UnterminatedSignedInteger) := by
  refine ⟨?_, rustSignedTransform_small, by decide, by decide, ?_⟩
  · intro buf n r h
    exact signedGo_eq_unsignedGo buf 0 0 0 n r h
  · intro buf h
    exact signedGo_err buf 0 0 0 h

/-- C4 witness: the unsigned/signed relation and the in-range formula,
each applied at `[0x03]` (raw 3, odd). -/
theorem C4_signed_zigzag_witness :
    signedP [0x03] = .ok (1, rustSignedTransform (u64AsI64 3)) ∧
    rustSignedTransform (u64AsI64 3) =
      if 3 % 2 = 0 then ((3 / 2 : Nat) : Int) else -((3 / 2 : Nat) : Int) - 1 :=
  ⟨C4_signed_zigzag.1 [0x03] 1 3 (by decide),
   C4_signed_zigzag.2.1 3 (by decide)⟩

/-- C5, counterexample.  At the ten-byte encoding `[0x80 ×9, 0x03]` the
`u64` shift discards the top bit of the final contribution (`3u64 << 63`
wraps to `2^63`, both build modes): the decoder returns `2^63`, while the
claim's unbounded sum `Σ (bᵢ &&& 0x7f) <<< (7·i)` is `3·2^63`, beyond
`u64::MAX`. -/
theorem C5_counterexample :
    unsignedP [0x80, 0x80, 0x80, 0x80, 0x80, 0x80, 0x80, 0x80, 0x80, 0x03] =
      .ok (10, 2 ^ 63) ∧
    varintVal [0x80, 0x80, 0x80, 0x80, 0x80, 0x80, 0x80, 0x80, 0x80, 0x03] =
      3 * 2 ^ 63 ∧
    (2 ^ 63 : Nat) ≠ 3 * 2 ^ 63 :=
  ⟨by decide, by decide, by decide⟩

/-- C5, amended.  The unsigned decoder consumes through the first byte
below `0x80` and returns the wrapped 64-bit sum of the per-byte
contributions (`varintValWrap`: each `(bᵢ &&& 0x7f) <<< (7·i)` has the
bits above bit 63 discarded and the running sum wraps modulo 2^64); for
encodings of at most ten bytes this equals the claim's unbounded sum
reduced modulo 2^64.  `[0x96, 0x01]` gives `(2, 150)`; a slice with no
terminating byte fails with `UnterminatedUnsignedInteger`. -/
theorem C5_unsigned_varint :
    (∀ (pre : List Nat) (t : Nat) (rest : List Nat),
      (∀ b ∈ pre, 0x80 ≤ b) → t < 0x80 →
      unsignedP (pre ++ t :: rest) =
        .ok (pre.length + 1, varintValWrap (pre ++ [t]))) ∧
    (∀ l : List Nat, l.length ≤ 10 → varintValWrap l = varintVal l % 2 ^ 64) ∧
    unsignedP [0x96, 0x01] = .ok (2, 150) ∧
    (∀ buf : List Nat, (∀ b ∈ buf, 0x80 ≤ b) →
      unsignedP buf = .err .UnterminatedUnsignedInteger) := by
  refine ⟨?_, varintValWrap_short, by decide, ?_⟩
  · intro pre t rest hpre ht
    have h := unsignedGo_spec pre t rest 0 0 0 hpre ht
    simpa [varintValWrap] using h
  · intro buf h
    exact unsignedGo_err buf 0 0 0 h

/-- C5 witness: the wrapped-sum formula and its agreement with the
unbounded sum, each applied at `[0x96, 0x01]`. -/
theorem C5_unsigned_varint_witness :
    unsignedP ([0x96] ++ 0x01 :: []) =
      .ok ([0x96].length + 1, varintValWrap ([0x96] ++ [0x01])) ∧
    varintValWrap [0x96, 0x01] = varintVal [0x96, 0x01] % 2 ^ 64 :=
  ⟨C5_unsigned_varint.1 [0x96] 0x01 [] (by decide) (by decide),
   C5_unsigned_varint.2.1 [0x96, 0x01] (by decide)⟩

/-- C6.  The interning table never exceeds 15,000 entries: one push keeps
the bound, inserting any sequence of pairs from empty leaves exactly the
15,000 most-recently-inserted pairs (so the 15,001st insertion evicts the
very first), and the whole byte-processing loop preserves the bound on the
decoder's table. -/
theorem C6_interning_cap :
    (∀ (s : Strings) (a b : List Nat), s.length ≤ 15000 →
      (cachePush s a b).length ≤ 15000) ∧
    (∀ L : List (List Nat × List Nat),
      List.foldl (fun t p => cachePush t p.1 p.2) [] L = L.reverse.take 15000) ∧
    (∀ (d : Decoder) (bs : List Nat) (d' : Decoder) (outs : List Dataset),
      d.strings.length ≤ 15000 → processBytes d bs = .ok (d', outs) →
      d'.strings.length ≤ 15000) := by
  refine ⟨fun s a b h => cachePush_length_le a b h, ?_,
    fun d bs d' outs h hp => processBytes_strings_le hp h⟩
  intro L
  have h := foldl_cachePush L [] (by simp)
  simpa using h

/-- C6 witness: the cap bound, the eviction formula, and the decoder-level
bound each applied at a concrete input. -/
theorem C6_interning_cap_witness :
    (cachePush [] [1] [2]).length ≤ 15000 ∧
    List.foldl (fun t p => cachePush t p.1 p.2) [] [([1], [2])] =
      [([1], [2])].reverse.take 15000 ∧
    ({ newDecoder with state := .Ty } : Decoder).strings.length ≤ 15000 :=
  ⟨C6_interning_cap.1 [] [1] [2] (by decide),
   C6_interning_cap.2.1 [([1], [2])],
   C6_interning_cap.2.2 newDecoder [0xff] { newDecoder with state := .Ty } []
     (by decide) (by decide)⟩

/-- C7.  An inline tag pair is interned exactly when its combined byte
length is at most 250; concretely, a 250-byte pair is retrievable by a
later back-reference (selector 1), while after a 251-byte pair the same
back-reference fails with `StringUnavailable` carrying index 1. -/
theorem C7_eligibility_cutoff :
    (∀ (k v : List Nat) (s : Strings), 0 ∉ k → 0 ∉ v →
      validUtf8 k = true → validUtf8 v = true →
      tagsP ([0] ++ k ++ [0] ++ v ++ [0]) s =
        .ok (k.length + v.length + 3, [(k, v)],
          if k.length + v.length ≤ 250 then cachePush s k v else s)) ∧
    tagsP ([0] ++ List.replicate 125 0x61 ++ [0] ++ List.replicate 125 0x62 ++
        [0] ++ [0x01]) [] =
      .ok (254, [(List.replicate 125 0x61, List.replicate 125 0x62)],
        [(List.replicate 125 0x61, List.replicate 125 0x62)]) ∧
    tagsP ([0] ++ List.replicate 125 0x61 ++ [0] ++ List.replicate 126 0x62 ++
        [0] ++ [0x01]) [] =
      .err (.StringUnavailable 1) := by
  refine ⟨fun k v s hk hv huk huv => tagsP_inline_terminated k v s hk hv huk huv,
    by decide, by decide⟩

/-- C7 witness: the insertion rule applied at a concrete 2-byte pair. -/
theorem C7_eligibility_cutoff_witness :
    tagsP ([0] ++ [0x61] ++ [0] ++ [0x62] ++ [0]) [] =
      .ok ([0x61].length + [0x62].length + 3, [([0x61], [0x62])],
        if [0x61].length + [0x62].length ≤ 250 then cachePush [] [0x61] [0x62] else []) :=
  C7_eligibility_cutoff.1 [0x61] [0x62] [] (by decide) (by decide) (by decide) (by decide)

/-- The author metadata of the concrete reset scenario below (version 1,
timestamp 1, changeset 1, uid 7, user "A"). -/
def resetUserInfo : Info :=
  { version := some 1, timestamp := some 1, changeset := some 1, uid := some 7, user := some [0x41] }

/-- A concrete decoder in the type state holding an interned pair and a
previously emitted record, used to witness the reset transition. -/
def resetWitnessDecoder : Decoder :=
  { newDecoder with state := .Ty, strings := [([0x07], [0x41])], prev := some (.Timestamp { time := 0 }) }

/-- C8.  A `0xff` byte seen in the type position is a reset marker: the
previous-record memory is cleared (so the next id/timestamp/changeset
deltas apply against zero) while every other decoder field — in particular
the interning table — is left unchanged.  Concretely, a Node inserts a
uid/user pair, a reset follows, and the next Way frame's id equals its
delta alone while its author back-reference still resolves to the
pre-reset pair. -/
theorem C8_reset_semantics :
    (∀ (d : Decoder) (b : Nat), d.state = .Ty → b = 0xff →
      ∃ d', stepByte d b = .ok (d', none) ∧ d'.prev = none ∧
        d'.strings = d.strings ∧ d'.state = .Ty ∧ d'.len = d.len ∧
        d'.size = d.size ∧ d'.chunk = d.chunk ∧
        d'.data_type = d.data_type ∧ d'.npow = d.npow) ∧
    decodeChunks [[0xff, 0x10, 0x09, 0x02, 0x01, 0x02, 0x02, 0x00, 0x07, 0x00,
        0x41, 0x00, 0xff, 0x11, 0x05, 0x02, 0x01, 0x02, 0x02, 0x01]] =
      .ok [.Node { id := 1, info := some resetUserInfo, data := none, tags := [] },
           .Way { id := 1, info := some resetUserInfo, data := none, tags := [] }] := by
  constructor
  · intro d b hst hb
    subst hb
    refine ⟨{ d with prev := none }, ?_, rfl, rfl, by simp [hst], rfl, rfl, rfl, rfl, rfl⟩
    simp [stepByte, hst, stepType]
  · decide

/-- C8 witness: the reset transition applied at a concrete decoder holding
an interned pair and a previous record. -/
theorem C8_reset_semantics_witness :
    ∃ d', stepByte resetWitnessDecoder 0xff = .ok (d', none) ∧ d'.prev = none ∧
      d'.strings = resetWitnessDecoder.strings ∧ d'.state = .Ty ∧
      d'.len = resetWitnessDecoder.len ∧ d'.size = resetWitnessDecoder.size ∧
      d'.chunk = resetWitnessDecoder.chunk ∧
      d'.data_type = resetWitnessDecoder.data_type ∧
      d'.npow = resetWitnessDecoder.npow :=
  C8_reset_semantics.1 resetWitnessDecoder 0xff rfl rfl

/-- C9.  A relation frame whose single member carries an empty inline
type+role string (the member string's first byte is the `0x00`
terminator): the decoder indexes `mstring[0]` out of bounds and panics
(`crash`), instead of returning a `Relation` or a `DecodeError`. -/
theorem C9_empty_member_string_crashes :
    decodeChunks [[0xff, 0x12, 0x05, 0x00, 0x00, 0x02, 0x00, 0x00]] = .crash := by
  decide

/-- C10, counterexample.  A Node body whose tag KEY reaches the end of the
body without a `0x00` terminator: the following value slice
`&buf[i+1..]` has start index `buf.len()+1` and the decoder panics
(`crash`) — parsing does not complete as if the terminator were
present. -/
theorem C10_counterexample :
    decodeChunks [[0xff, 0x10, 0x06, 0x00, 0x00, 0x00, 0x00, 0x00, 0x61]] = .crash := by
  decide

/-- C10, amended.  Only for the final string its parser reads before
returning — a tag VALUE — does an unterminated string extend to the last
byte of the body with parsing completing exactly as if the terminator were
present; an unterminated tag key (and likewise a user name or member
string followed by further parsing) instead panics on the next slice. -/
theorem C10_unterminated_final_value (k v : List Nat) (s : Strings)
    (hk : 0 ∉ k) (hv : 0 ∉ v) (huk : validUtf8 k = true) (huv : validUtf8 v = true) :
    tagsP ([0] ++ k ++ [0] ++ v) s = tagsP ([0] ++ k ++ [0] ++ v ++ [0]) s := by
  rw [tagsP_inline_unterminated k v s hk hv huk huv,
    tagsP_inline_terminated k v s hk hv huk huv]

/-- C10 witness: the unterminated-value equivalence at a concrete pair. -/
theorem C10_unterminated_final_value_witness :
    tagsP ([0] ++ [0x61] ++ [0] ++ [0x62]) [] =
      tagsP ([0] ++ [0x61] ++ [0] ++ [0x62] ++ [0]) [] :=
  C10_unterminated_final_value [0x61] [0x62] [] (by decide) (by decide)
    (by decide) (by decide)

end O5m
